import Mathlib

/-!
Shallow embedding of the flow-conductor request-pipeline library.

The embedding follows the sources:
  * `src/unnamed/part_004` (first document): `RequestChain` with `execute`,
    `executeAll`, `executeAllRequests`, `executeSingle`, `begin`, `next`,
    and the duck-typed discriminators `isPipelineRequestStage` /
    `isPipelineManagerStage`;
  * `src/packages/core/src/request-adapter.ts`: `RequestAdapter` with
    `createRequest`, `getResult`, `executeRequest`, and the stage model
    (`BasePipelineStage`, `PipelineRequestStage`, `PipelineManagerStage`,
    `IRequestConfig`);
  * `src/unnamed/part_011` (first document): `RequestFlow` builder surface
    (`setRequestAdapter`, `addAll`, `withErrorHandler`, `withResultHandler`,
    `withFinishHandler`).

JavaScript promises are embedded as `Except`: a fulfilled promise is `.ok`
and a rejected one is `.error`.  Side effects (transport invocations and
handler invocations) are recorded in an explicit state threaded through
execution.  Asynchronous suspension points collapse to sequential
composition, which is faithful because the engine awaits every dispatch
before continuing (single-threaded cooperative scheduling).
-/

namespace FlowConductor

/-- JavaScript-like runtime values, as far as the engine observes them:
the engine only inspects truthiness (result-handler gating) and otherwise
treats stage results as opaque. -/
inductive JSVal : Type where
  | undefV : JSVal
  | nullV : JSVal
  | boolV (b : Bool) : JSVal
  | numV (n : Int) : JSVal
  | strV (s : String) : JSVal
  | arrV (elems : List JSVal) : JSVal
  | errV (msg : String) : JSVal
deriving Repr

/-- JavaScript truthiness: `undefined`, `null`, `false`, `0` and `""` are
falsy; arrays and error objects are object references, hence truthy. -/
def JSVal.truthy : JSVal → Bool
  | .undefV => false
  | .nullV => false
  | .boolV b => b
  | .numV n => n != 0
  | .strV s => s != ""
  | .arrV _ => true
  | .errV _ => true

/-- The fixed HTTP verb set of `IRequestConfig.method`. -/
inductive HttpMethod : Type where
  | GET | POST | PATCH | PUT | DELETE | HEAD | OPTIONS | CONNECT | TRACE
deriving Repr, DecidableEq

/-- `IRequestConfig`: `url`, `method`, optional `data`, plus an open
extension bag (`[key: string]: any`) for adapter-specific fields. -/
structure RequestConfig : Type where
  url : String
  method : HttpMethod
  data : JSVal := .undefV
  extra : List (String × JSVal) := []
deriving Repr

/-- Failure kinds observable from the engine.  `transport` carries the
rejection message of the adapter transport, `ssrf` the URL-guard reason,
`unknownStage` is the `Error("Unknown type")` thrown by `executeSingle`.
`fuel` is an artifact of the embedding (recursion bound for nested
chains); it never arises when enough fuel is supplied. -/
inductive Err : Type where
  | unknownStage : Err
  | ssrf (reason : String) : Err
  | transport (msg : String) : Err
  | fuel : Err
deriving Repr, DecidableEq

/-- The failure seen as a JavaScript value (as when `executeAll` resolves
with the caught error object). -/
def Err.toVal : Err → JSVal
  | .unknownStage => .errV "Unknown type"
  | .ssrf r => .errV r
  | .transport m => .errV m
  | .fuel => .errV "fuel"

/-- Observable events: a transport invocation (`createRequest`), and the
three handler invocations.  Handler events carry the nesting depth of the
chain whose handler fired (the outermost chain runs at depth 0, a manager
stage's nested chain at depth 1, and so on). -/
inductive Event : Type where
  | call (cfg : RequestConfig) : Event
  | errEv (depth : Nat) (e : Err) : Event
  | resEv (depth : Nat) (v : JSVal) : Event
  | finEv (depth : Nat) : Event
deriving Repr

/-- Execution state: the chronological event log and the number of
transport attempts so far (used to index the transport oracle). -/
structure S : Type where
  events : List Event := []
  tcount : Nat := 0
deriving Repr

/-- Append one event to the log. -/
def S.emit (st : S) (e : Event) : S :=
  { st with events := st.events ++ [e] }

/-- The network environment: the outcome of the `n`-th transport attempt
on a given config — a response value, or a rejection message. -/
def Transport : Type := Nat → RequestConfig → Except String JSVal

/-- `UrlValidationOptions` consumed by the URL guard (supplied once at
adapter construction). -/
structure UrlValidationOptions : Type where
  allowLocalhost : Bool := false
  allowPrivateNetworks : Bool := false
  allowedHosts : List String := []
deriving Repr, DecidableEq

/-- Split a character list at the first `"://"`, yielding the scheme
characters and the remainder. -/
def splitScheme : List Char → Option (List Char × List Char)
  | [] => none
  | ':' :: '/' :: '/' :: rest => some ([], rest)
  | c :: rest =>
      match splitScheme rest with
      | some (s, h) => some (c :: s, h)
      | none => none

/-- Scheme of a URL string: the text before `"://"`, if present. -/
def urlScheme (url : String) : Option String :=
  match splitScheme url.toList with
  | some (s, _) => some (String.mk s)
  | none => none

/-- Host characters: everything up to the first `/`, `:` (port), `?` or
`#`. -/
def hostChars (cs : List Char) : List Char :=
  cs.takeWhile fun c => c ≠ '/' && c ≠ ':' && c ≠ '?' && c ≠ '#'

/-- Host of a URL string: the text after `"://"` up to the first `/`,
`:`, `?` or `#`; the IPv6 loopback `[::1]` keeps its colons, so it is
recognised with its brackets. -/
def urlHost (url : String) : String :=
  match splitScheme url.toList with
  | some (_, rest) => String.mk (hostChars rest)
  | none => ""

/-- Split a character list on dots. -/
def splitDots : List Char → List (List Char)
  | [] => [[]]
  | '.' :: rest => [] :: splitDots rest
  | c :: rest =>
      match splitDots rest with
      | g :: gs => (c :: g) :: gs
      | [] => [[c]]

/-- Decimal digit value of a character, if it is a digit. -/
def digitVal? (c : Char) : Option Nat :=
  if '0' ≤ c && c ≤ '9' then some (c.toNat - '0'.toNat) else none

/-- Accumulate a decimal number over digit characters. -/
def charsToNatAux : List Char → Nat → Option Nat
  | [], acc => some acc
  | c :: rest, acc =>
      match digitVal? c with
      | some d => charsToNatAux rest (acc * 10 + d)
      | none => none

/-- Parse a non-empty digit string as a natural number. -/
def charsToNat? : List Char → Option Nat
  | [] => none
  | cs => charsToNatAux cs 0

/-- The four dot-separated components of an IPv4 literal, when the host is
one. -/
def ipv4Octets (host : String) : Option (Nat × Nat × Nat × Nat) :=
  match (splitDots host.toList).map charsToNat? with
  | [some a, some b, some c, some d] =>
      if a ≤ 255 && b ≤ 255 && c ≤ 255 && d ≤ 255 then some (a, b, c, d)
      else none
  | _ => none

/-- Whether a host literal is a loopback target: `127.0.0.0/8`, `::1`, or
the name `localhost`. -/
def isLoopbackHost (host : String) : Bool :=
  host == "localhost" || host == "::1" || host == "[::1]" ||
    (match ipv4Octets host with
     | some (a, _, _, _) => a == 127
     | none => false)

/-- Whether the unique-local IPv6 marker opens the host literal. -/
def uniqueLocalV6 (host : String) : Bool :=
  match host.toList with
  | 'f' :: 'c' :: _ => true
  | 'f' :: 'd' :: _ => true
  | '[' :: 'f' :: 'c' :: _ => true
  | '[' :: 'f' :: 'd' :: _ => true
  | _ => false

/-- Whether a host literal is in a private or link-local range:
`10.0.0.0/8`, `172.16.0.0/12`, `192.168.0.0/16`, `169.254.0.0/16`, or the
IPv6 unique-local block (`fc00::/7`). -/
def isPrivateHost (host : String) : Bool :=
  (match ipv4Octets host with
   | some (a, b, _, _) =>
       a == 10 || (a == 172 && decide (16 ≤ b) && decide (b ≤ 31)) ||
         (a == 192 && b == 168) || (a == 169 && b == 254)
   | none => false)
  || uniqueLocalV6 host

/-- Modelled from the spec: the module `utils/url-validator` (exported by
`packages/core/src/index.ts` and imported by
`packages/core/src/request-adapter.ts`) is not among the repository
sources, so `validateUrl` is written from §4.4 of the specification: the
scheme must be http or https; an exact `allowedHosts` match overrides the
host-based blocks; loopback hosts are rejected unless `allowLocalhost`;
private/link-local hosts are rejected unless `allowPrivateNetworks`.
Succeeds with `()` or fails with the violation reason. -/
def validateUrl (url : String) (opts : UrlValidationOptions) :
    Except String Unit :=
  match urlScheme url with
  | none => .error "invalid scheme"
  | some sch =>
      if sch != "http" && sch != "https" then .error "invalid scheme"
      else
        let host := urlHost url
        if opts.allowedHosts.contains host then .ok ()
        else if isLoopbackHost host && !opts.allowLocalhost then
          .error "loopback address blocked"
        else if isPrivateHost host && !opts.allowPrivateNetworks then
          .error "private address blocked"
        else .ok ()

/-- `RequestAdapter.createRequest`: the concrete transport call.  Abstract
in the source (implemented by each adapter package); here it draws the
outcome from the transport oracle and records the attempt. -/
def createRequest (tr : Transport) (cfg : RequestConfig) (st : S) :
    Except Err JSVal × S :=
  let st1 : S := { st with events := st.events ++ [.call cfg],
                           tcount := st.tcount + 1 }
  match tr st.tcount cfg with
  | .ok v => (.ok v, st1)
  | .error m => (.error (.transport m), st1)

/-- `RequestAdapter.getResult`: identity passthrough (a pure type cast in
both source variants). -/
def getResult (v : JSVal) : JSVal := v

/-- `RequestAdapter.executeRequest` from
`packages/core/src/request-adapter.ts`: validates the URL synchronously,
then delegates to `createRequest` only if validation passes.  A guard
violation throws before any transport attempt. -/
def executeRequest (opts : UrlValidationOptions) (tr : Transport)
    (cfg : RequestConfig) (st : S) : Except Err JSVal × S :=
  match validateUrl cfg.url opts with
  | .error reason => (.error (.ssrf reason), st)
  | .ok _ => createRequest tr cfg st

/-- A stage's `config` field: a literal request descriptor or a factory
taking the previous stage's result (`IRequestConfigFactory`). -/
inductive ConfigField : Type where
  | literal (cfg : RequestConfig) : ConfigField
  | factory (f : JSVal → RequestConfig) : ConfigField

mutual
/-- A `RequestChain` instance: the ordered `requestList`, the three
handler slots (observable only through whether they are registered, since
their bodies are opaque side effects), and the adapter's URL-validation
options.  The transport oracle, being the environment, is a parameter of
execution rather than part of the chain. -/
inductive Chain : Type where
  | mk (stages : List Stage) (errorH resultH finishH : Bool)
       (opts : UrlValidationOptions) : Chain

/-- A pipeline stage as the duck-typed union the engine consumes: the
optional `config` key (request stage), the optional `request` key (a
nested chain, manager stage), the optional `precondition` and `mapper`,
and the mutable `result` slot (reads as `undefined` until written). -/
inductive Stage : Type where
  | mk (config : Option ConfigField) (request : Option Chain)
       (precondition : Option (Unit → Bool))
       (mapper : Option (JSVal → JSVal)) (result : JSVal) : Stage
end

def Chain.stages : Chain → List Stage
  | .mk s _ _ _ _ => s

def Chain.errorH : Chain → Bool
  | .mk _ e _ _ _ => e

def Chain.resultH : Chain → Bool
  | .mk _ _ r _ _ => r

def Chain.finishH : Chain → Bool
  | .mk _ _ _ f _ => f

def Chain.opts : Chain → UrlValidationOptions
  | .mk _ _ _ _ o => o

def Stage.config : Stage → Option ConfigField
  | .mk c _ _ _ _ => c

def Stage.request : Stage → Option Chain
  | .mk _ r _ _ _ => r

def Stage.precondition : Stage → Option (Unit → Bool)
  | .mk _ _ p _ _ => p

def Stage.mapper : Stage → Option (JSVal → JSVal)
  | .mk _ _ _ m _ => m

def Stage.result : Stage → JSVal
  | .mk _ _ _ _ v => v

/-- Overwrite the stage's cached `result` slot
(`requestEntityList[i].result = result`). -/
def Stage.withResult : Stage → JSVal → Stage
  | .mk c r p m _, v => .mk c r p m v

/-- Resolve the `config` key: invoke the factory with the previous result
when it is a function, otherwise take the literal
(`typeof config === "function" ? config(previousResult) : config`). -/
def resolveConfig : ConfigField → JSVal → RequestConfig
  | .literal cfg, _ => cfg
  | .factory f, prev => f prev

/-- Apply the optional mapper to the raw result
(`requestEntity.mapper ? await requestEntity.mapper(requestResult) :
requestResult`). -/
def applyMapper : Option (JSVal → JSVal) → JSVal → JSVal
  | some m, v => m v
  | none, v => v

/-- `RequestChain.executeSingle`, parametrised by the nested-chain
executor `recur` (the `request.execute()` call of the manager branch).
The branch order mirrors the source: `isPipelineRequestStage` (the
`config` key) is tested first, then `isPipelineManagerStage` (the
`request` key), otherwise `Error("Unknown type")` is thrown.  Both
branches finish through `getResult`. -/
def executeSingleW (recur : Chain → Nat → S → Except Err JSVal × S)
    (tr : Transport) (opts : UrlValidationOptions) (depth : Nat)
    (stage : Stage) (previousResult : JSVal) (st : S) :
    Except Err JSVal × S :=
  match stage.config with
  | some cf =>
      let requestConfig := resolveConfig cf previousResult
      match executeRequest opts tr requestConfig st with
      | (.ok raw, st1) => (.ok (getResult raw), st1)
      | (.error e, st1) => (.error e, st1)
  | none =>
      match stage.request with
      | some nested =>
          match recur nested (depth + 1) st with
          | (.ok raw, st1) => (.ok (getResult raw), st1)
          | (.error e, st1) => (.error e, st1)
      | none => (.error .unknownStage, st)

/-- The loop body of `RequestChain.executeAllRequests`, parametrised by
the single-stage dispatcher.  `done` holds the already-executed stages,
most recent first, with their `result` slots overwritten — the loop reads
the previous result from that slot
(`previousEntity?.result`, `undefined` for the first stage).  The loop
never consults `precondition` (mirroring the source, where the field is
declared on `BasePipelineStage` but ignored by the execution loop). -/
def runStagesW (exec1 : Stage → JSVal → S → Except Err JSVal × S) :
    List Stage → List Stage → List JSVal → S →
    Except Err (List JSVal) × S
  | [], _, acc, st => (.ok acc, st)
  | stage :: rest, done, acc, st =>
      let previousResult : JSVal :=
        match done with
        | [] => .undefV
        | prev :: _ => prev.result
      match exec1 stage previousResult st with
      | (.error e, st1) => (.error e, st1)
      | (.ok raw, st1) =>
          let result := applyMapper stage.mapper raw
          runStagesW exec1 rest (stage.withResult result :: done)
            (acc ++ [result]) st1

/-- The try/catch/finally wrapper of `RequestChain.execute` around the
finished loop: take the last result (`results[results.length - 1]`,
`undefined` on an empty list), invoke the result handler only when it is
registered and the value truthy, re-raise caught failures through the
error handler (`return Promise.reject(error)` / `throw error`), and fire
the finish handler on every path. -/
def execWrap (c : Chain) (depth : Nat)
    (run : Except Err (List JSVal) × S) : Except Err JSVal × S :=
  let step : Except Err JSVal × S :=
    match run with
    | (.ok results, st1) =>
        let result := results.getLast?.getD .undefV
        if c.resultH && result.truthy then
          (.ok result, st1.emit (.resEv depth result))
        else (.ok result, st1)
    | (.error e, st1) =>
        if c.errorH then (.error e, st1.emit (.errEv depth e))
        else (.error e, st1)
  if c.finishH then (step.1, step.2.emit (.finEv depth))
  else step

/-- The try/catch/finally wrapper of `RequestChain.executeAll` around the
finished loop: copy the results into `resultList`, invoke the result
handler when it is registered (the guard tests the results array, which
is always truthy), and on a caught failure with an error handler
registered resolve successfully with the caught error
(`return Promise.resolve(error)`); the finish handler fires on every
path. -/
def execAllWrap (c : Chain) (depth : Nat)
    (run : Except Err (List JSVal) × S) : Except Err JSVal × S :=
  let step : Except Err JSVal × S :=
    match run with
    | (.ok results, st1) =>
        let resultList := JSVal.arrV results
        if c.resultH && resultList.truthy then
          (.ok resultList, st1.emit (.resEv depth resultList))
        else (.ok resultList, st1)
    | (.error e, st1) =>
        if c.errorH then (.ok e.toVal, st1.emit (.errEv depth e))
        else (.error e, st1)
  if c.finishH then (step.1, step.2.emit (.finEv depth))
  else step

/-- `RequestChain.execute`: run all stages through
`executeAllRequests`, then apply the `execute` wrapper.  Defined by
recursion on fuel, consumed once per nested-chain descent; `Err.fuel`
marks exhaustion and never occurs with enough fuel. -/
def chainExec (tr : Transport) : Nat → Chain → Nat → S →
    Except Err JSVal × S
  | 0, _, _, st => (.error .fuel, st)
  | fuel + 1, c, depth, st =>
      execWrap c depth (runStagesW
        (fun stage prev s =>
          executeSingleW (chainExec tr fuel) tr c.opts depth stage prev s)
        c.stages [] [] st)

/-- The per-stage dispatcher used by a chain executing at a given fuel
level and depth: `executeSingleW` with nested chains run through
`chainExec` at one less fuel and one greater depth. -/
def stageDispatch (tr : Transport) (fuel : Nat) (depth : Nat)
    (opts : UrlValidationOptions) :
    Stage → JSVal → S → Except Err JSVal × S :=
  fun stage prev st =>
    executeSingleW (chainExec tr fuel) tr opts depth stage prev st

/-- `RequestChain.executeAll`: run all stages through
`executeAllRequests`, then apply the `executeAll` wrapper. -/
def chainExecAll (tr : Transport) : Nat → Chain → Nat → S →
    Except Err JSVal × S
  | 0, _, _, st => (.error .fuel, st)
  | fuel + 1, c, depth, st =>
      execAllWrap c depth (runStagesW (stageDispatch tr fuel depth c.opts)
        c.stages [] [] st)

/-- `RequestChain.begin(stage, adapter)`: a fresh chain seeded with one
stage, no handlers, and the adapter's validation options. -/
def Chain.begin (stage : Stage) (opts : UrlValidationOptions) : Chain :=
  .mk [stage] false false false opts

/-- `RequestChain.next` / `addRequestEntity`: push the stage at the end
of `requestList`. -/
def Chain.next (c : Chain) (stage : Stage) : Chain :=
  .mk (c.stages ++ [stage]) c.errorH c.resultH c.finishH c.opts

/-- `RequestFlow.addAll`: concatenate a stage list at the end of
`requestList`. -/
def Chain.addAll (c : Chain) (l : List Stage) : Chain :=
  .mk (c.stages ++ l) c.errorH c.resultH c.finishH c.opts

/-- `RequestFlow.setRequestAdapter`: replace the adapter (observably, its
validation options). -/
def Chain.setRequestAdapter (c : Chain) (opts : UrlValidationOptions) :
    Chain :=
  .mk c.stages c.errorH c.resultH c.finishH opts

/-- `RequestFlow.withErrorHandler`: register the error handler. -/
def Chain.withErrorHandler (c : Chain) : Chain :=
  .mk c.stages true c.resultH c.finishH c.opts

/-- `RequestFlow.withResultHandler`: register the result handler. -/
def Chain.withResultHandler (c : Chain) : Chain :=
  .mk c.stages c.errorH true c.finishH c.opts

/-- `RequestFlow.withFinishHandler`: register the finish handler. -/
def Chain.withFinishHandler (c : Chain) : Chain :=
  .mk c.stages c.errorH c.resultH true c.opts

/-- Reference loop written from the spec's words, for the refinement in
claim C7: the previous result fed to stage `i` is threaded directly as
the mapped output of stage `i - 1` (`undefined` for the first stage),
with no `result`-slot machinery. -/
def runStagesSpec (exec1 : Stage → JSVal → S → Except Err JSVal × S) :
    List Stage → JSVal → List JSVal → S → Except Err (List JSVal) × S
  | [], _, acc, st => (.ok acc, st)
  | stage :: rest, prev, acc, st =>
      match exec1 stage prev st with
      | (.error e, st1) => (.error e, st1)
      | (.ok raw, st1) =>
          let result := applyMapper stage.mapper raw
          runStagesSpec exec1 rest result (acc ++ [result]) st1

/-- `RetryConfig`: `maxRetries`, base `retryDelay`, `exponentialBackoff`
flag, and the `retryCondition` predicate over the failure. -/
structure RetryConfig : Type where
  maxRetries : Nat
  retryDelay : Nat
  exponentialBackoff : Bool := false
  retryCondition : String → Bool := fun _ => true

/-- Backoff delay before re-attempt number `n + 1`:
`retryDelay * (exponentialBackoff ? 2^n : 1)`. -/
def retryDelayFor (p : RetryConfig) (n : Nat) : Nat :=
  p.retryDelay * (if p.exponentialBackoff then 2 ^ n else 1)

/-- Modelled from the spec: the module `utils/retryUtils` and the
retry-aware stage dispatch are exported by `packages/core/src/index.ts`
but absent from the repository sources, so the retry evaluator is written
from §4.3 of the specification.  One loop step at attempt `n`: on success
stop; on failure stop when the retry condition rejects the failure or
`n ≥ maxRetries`; otherwise record the backoff delay and re-dispatch at
`n + 1`.  The first argument bounds the remaining re-dispatches and is
called with `maxRetries + 1`, which the stopping condition never
exceeds. -/
def retryLoop (p : RetryConfig) (dispatch : Nat → Except String JSVal) :
    Nat → Nat → Except String JSVal × List Nat
  | _, 0 => (.error "retry bound exhausted", [])
  | n, left + 1 =>
      match dispatch n with
      | .ok v => (.ok v, [])
      | .error e =>
          if !p.retryCondition e || p.maxRetries ≤ n then (.error e, [])
          else
            let d := retryDelayFor p n
            let rec2 := retryLoop p dispatch (n + 1) left
            (rec2.1, d :: rec2.2)

/-- Run one stage's attempt sequence under a retry policy, returning the
final outcome and the list of inter-attempt backoff delays. -/
def runWithRetry (p : RetryConfig)
    (dispatch : Nat → Except String JSVal) :
    Except String JSVal × List Nat :=
  retryLoop p dispatch 0 (p.maxRetries + 1)

/-- Dispatch under an optional retry policy: a stage with no
`retryPolicy` is dispatched exactly once, with no backoff delays. -/
def dispatchWithPolicy (p : Option RetryConfig)
    (dispatch : Nat → Except String JSVal) :
    Except String JSVal × List Nat :=
  match p with
  | none => (dispatch 0, [])
  | some policy => runWithRetry policy dispatch

/-- Number of transport attempts recorded in an event log. -/
def countCalls (evs : List Event) : Nat :=
  evs.countP fun e => match e with
    | .call _ => true
    | _ => false

/-- Number of finish-handler invocations at a given depth. -/
def countFin (depth : Nat) (evs : List Event) : Nat :=
  evs.countP fun e => match e with
    | .finEv d => d == depth
    | _ => false

/-- Number of result-handler invocations at a given depth. -/
def countRes (depth : Nat) (evs : List Event) : Nat :=
  evs.countP fun e => match e with
    | .resEv d _ => d == depth
    | _ => false

/-- Number of error-handler invocations at a given depth. -/
def countErr (depth : Nat) (evs : List Event) : Nat :=
  evs.countP fun e => match e with
    | .errEv d _ => d == depth
    | _ => false

/-- The depth of a handler-invocation event (`none` for transport
calls). -/
def Event.handlerDepth : Event → Option Nat
  | .call _ => none
  | .errEv d _ => some d
  | .resEv d _ => some d
  | .finEv d => some d

/-- A GET descriptor for a public host (mirrors the test fixtures'
`http://example.com/users`). -/
def cfgUsers : RequestConfig :=
  { url := "http://example.com/users", method := .GET }

/-- A GET descriptor for the loopback target of the spec's SSRF test
property (`http://127.0.0.1/x`). -/
def cfgLoop : RequestConfig :=
  { url := "http://127.0.0.1/x", method := .GET }

/-- A transport whose `n`-th attempt succeeds with the attempt index as a
string. -/
def trOkW : Transport := fun n _ => .ok (.strV (toString n))

/-- A transport that always rejects (mirrors the test fixtures'
`mockReject(new Error("fake error message"))`). -/
def trFailW : Transport := fun _ _ => .error "fake error message"

/-- A plain request stage on the public descriptor: no precondition, no
mapper. -/
def stageUsers : Stage := .mk (some (.literal cfgUsers)) none none none
  .undefV

/-- A request stage whose mapper wraps the raw result in an array. -/
def stageWrap : Stage :=
  .mk (some (.factory (fun _ => cfgUsers))) none none
    (some (fun v => .arrV [v])) .undefV

/-- A request stage whose mapper discards the result (`undefined`), the
falsy final output of claim C9. -/
def stageFalsy : Stage :=
  .mk (some (.literal cfgUsers)) none none (some (fun _ => .undefV)) .undefV

/-- A request stage carrying `precondition: () => false` together with a
mapper, the failing input of claim C3. -/
def stagePreFalse : Stage :=
  .mk (some (.literal cfgUsers)) none (some (fun _ => false))
    (some (fun v => .arrV [v])) .undefV

/-- A one-stage chain with an `ErrorHandler` registered, the failing
input of claim C2. -/
def chainErrW : Chain := (Chain.begin stageUsers {}).withErrorHandler

/-- A two-stage chain whose second stage has a false precondition, the
failing input of claim C3. -/
def chainPreW : Chain := (Chain.begin stageUsers {}).next stagePreFalse

/-- A two-stage chain for the witness of claim C4. -/
def chainTwoW : Chain := (Chain.begin stageUsers {}).next stageWrap

/-- A one-stage chain with a `ResultHandler` registered and a falsy
mapped output, for the witness of claim C9. -/
def chainFalsyW : Chain := (Chain.begin stageFalsy {}).withResultHandler

/-- A nested two-stage chain for the witness of claim C6 (the spec's
manager-stage example). -/
def nestedTwoW : Chain := (Chain.begin stageUsers {}).next stageWrap

/-- A manager stage holding the nested two-stage chain, with a mapper on
the collapsed value. -/
def stageMgrW : Stage :=
  .mk none (some nestedTwoW) none (some (fun v => .arrV [v, .nullV]))
    .undefV

/-- A chain with a `FinishHandler` registered, for the witness-style
instances of claim C8. -/
def chainFinW : Chain := (Chain.begin stageUsers {}).withFinishHandler

/-- The dispatch sequence of the spec's retry test property: the
transport fails twice, then succeeds. -/
def dispatchW : Nat → Except String JSVal := fun n =>
  if n = 0 then .error "err0"
  else if n = 1 then .error "err1"
  else .ok (.strV "third attempt")

/-- The retry policy of the spec's retry test property. -/
def policyW : RetryConfig :=
  { maxRetries := 3, retryDelay := 100, exponentialBackoff := true,
    retryCondition := fun _ => true }

@[simp] theorem Chain.stages_mk (s e r f o) :
    (Chain.mk s e r f o).stages = s := rfl

@[simp] theorem Chain.errorH_mk (s e r f o) :
    (Chain.mk s e r f o).errorH = e := rfl

@[simp] theorem Chain.resultH_mk (s e r f o) :
    (Chain.mk s e r f o).resultH = r := rfl

@[simp] theorem Chain.finishH_mk (s e r f o) :
    (Chain.mk s e r f o).finishH = f := rfl

@[simp] theorem Chain.opts_mk (s e r f o) :
    (Chain.mk s e r f o).opts = o := rfl

@[simp] theorem Stage.config_mk (c r p m v) :
    (Stage.mk c r p m v).config = c := rfl

@[simp] theorem Stage.request_mk (c r p m v) :
    (Stage.mk c r p m v).request = r := rfl

@[simp] theorem Stage.mapper_mk (c r p m v) :
    (Stage.mk c r p m v).mapper = m := rfl

@[simp] theorem Stage.result_mk (c r p m v) :
    (Stage.mk c r p m v).result = v := rfl

@[simp] theorem Stage.withResult_result (s : Stage) (v : JSVal) :
    (s.withResult v).result = v := by
  cases s
  rfl

@[simp] theorem Stage.withResult_mapper (s : Stage) (v : JSVal) :
    (s.withResult v).mapper = s.mapper := by
  cases s
  rfl

theorem chainExec_succ (tr : Transport) (fuel : Nat) (c : Chain)
    (depth : Nat) (st : S) :
    chainExec tr (fuel + 1) c depth st =
      execWrap c depth
        (runStagesW (stageDispatch tr fuel depth c.opts) c.stages [] []
          st) := rfl

theorem chainExecAll_succ (tr : Transport) (fuel : Nat) (c : Chain)
    (depth : Nat) (st : S) :
    chainExecAll tr (fuel + 1) c depth st =
      execAllWrap c depth
        (runStagesW (stageDispatch tr fuel depth c.opts) c.stages [] []
          st) := rfl

/-- The state component grows by events satisfying `P`. -/
def Extends (st st' : S) (P : Event → Prop) : Prop :=
  ∃ delta, st'.events = st.events ++ delta ∧ ∀ e ∈ delta, P e

/-- An event acceptable inside a chain running at depth `d`: any
transport call, or a handler invocation of a chain at depth `d` or
deeper. -/
def DeepFrom (d : Nat) (e : Event) : Prop :=
  ∀ k, e.handlerDepth = some k → d ≤ k

theorem Extends.refl (st : S) (P : Event → Prop) : Extends st st P :=
  ⟨[], by simp, by simp⟩

theorem Extends.trans {st st1 st2 : S} {P : Event → Prop}
    (h1 : Extends st st1 P) (h2 : Extends st1 st2 P) :
    Extends st st2 P := by
  obtain ⟨d1, he1, hp1⟩ := h1
  obtain ⟨d2, he2, hp2⟩ := h2
  refine ⟨d1 ++ d2, by simp [he2, he1], ?_⟩
  intro e he
  rcases List.mem_append.mp he with h | h
  · exact hp1 e h
  · exact hp2 e h

theorem Extends.emit {st st1 : S} {P : Event → Prop} {e : Event}
    (h : Extends st st1 P) (hp : P e) : Extends st (st1.emit e) P := by
  obtain ⟨d1, he1, hp1⟩ := h
  refine ⟨d1 ++ [e], by simp [S.emit, he1], ?_⟩
  intro x hx
  rcases List.mem_append.mp hx with h | h
  · exact hp1 x h
  · simp at h; subst h; exact hp

theorem Extends.weaken {st st1 : S} {P Q : Event → Prop}
    (hpq : ∀ e, P e → Q e) (h : Extends st st1 P) : Extends st st1 Q := by
  obtain ⟨d1, he1, hp1⟩ := h
  exact ⟨d1, he1, fun e he => hpq e (hp1 e he)⟩

theorem DeepFrom.ofLe {d d' : Nat} (h : d ≤ d') (e : Event) :
    DeepFrom d' e → DeepFrom d e :=
  fun hd k hk => le_trans h (hd k hk)

theorem createRequest_extends (tr : Transport) (cfg : RequestConfig)
    (st : S) (P : Event → Prop) (hp : P (.call cfg)) :
    Extends st (createRequest tr cfg st).2 P := by
  have h : ∀ e ∈ [Event.call cfg], P e := by
    intro e he
    simp at he
    subst he
    exact hp
  unfold createRequest
  cases tr st.tcount cfg with
  | ok v => exact ⟨[.call cfg], by simp, h⟩
  | error m => exact ⟨[.call cfg], by simp, h⟩

theorem executeRequest_extends (opts : UrlValidationOptions)
    (tr : Transport) (cfg : RequestConfig) (st : S) (P : Event → Prop)
    (hp : P (.call cfg)) :
    Extends st (executeRequest opts tr cfg st).2 P := by
  unfold executeRequest
  cases validateUrl cfg.url opts with
  | error r => exact Extends.refl st P
  | ok _ => exact createRequest_extends tr cfg st P hp

theorem executeSingleW_extends
    (recur : Chain → Nat → S → Except Err JSVal × S) (tr : Transport)
    (opts : UrlValidationOptions) (depth : Nat) (stage : Stage)
    (prev : JSVal) (st : S)
    (hrec : ∀ c' s', Extends s' (recur c' (depth + 1) s').2
      (DeepFrom (depth + 1))) :
    Extends st (executeSingleW recur tr opts depth stage prev st).2
      (DeepFrom (depth + 1)) := by
  unfold executeSingleW
  cases stage.config with
  | some cf =>
      simp only
      have h := executeRequest_extends opts tr (resolveConfig cf prev) st
        (DeepFrom (depth + 1)) (by intro k hk; simp [Event.handlerDepth] at hk)
      rcases hr : executeRequest opts tr (resolveConfig cf prev) st with
        ⟨out, st1⟩
      rw [hr] at h
      cases out <;> simpa using h
  | none =>
      cases stage.request with
      | some nested =>
          simp only
          have h := hrec nested st
          rcases hr : recur nested (depth + 1) st with ⟨out, st1⟩
          rw [hr] at h
          cases out <;> simpa using h
      | none => exact Extends.refl st _

theorem runStagesW_extends
    (exec1 : Stage → JSVal → S → Except Err JSVal × S)
    (P : Event → Prop)
    (hexec : ∀ stage prev s, Extends s (exec1 stage prev s).2 P) :
    ∀ (todo done : List Stage) (acc : List JSVal) (st : S),
      Extends st (runStagesW exec1 todo done acc st).2 P := by
  intro todo
  induction todo with
  | nil => intro done acc st; exact Extends.refl st P
  | cons stage rest ih =>
      intro done acc st
      unfold runStagesW
      cases done with
      | nil =>
          rcases hr : exec1 stage .undefV st with ⟨out, st1⟩
          have h1 := hexec stage .undefV st
          rw [hr] at h1
          simp only [hr]
          cases out with
          | error e => simpa using h1
          | ok raw => exact h1.trans (ih _ _ st1)
      | cons p dtail =>
          rcases hr : exec1 stage p.result st with ⟨out, st1⟩
          have h1 := hexec stage p.result st
          rw [hr] at h1
          simp only [hr]
          cases out with
          | error e => simpa using h1
          | ok raw => exact h1.trans (ih _ _ st1)

theorem chainExec_extends (tr : Transport) :
    ∀ (fuel : Nat) (c : Chain) (depth : Nat) (st : S),
      Extends st (chainExec tr fuel c depth st).2 (DeepFrom depth) := by
  intro fuel
  induction fuel with
  | zero => intro c depth st; exact Extends.refl st _
  | succ fuel ih =>
      intro c depth st
      rw [chainExec_succ]
      have hrun : Extends st
          (runStagesW (stageDispatch tr fuel depth c.opts) c.stages [] []
            st).2 (DeepFrom depth) := by
        refine (runStagesW_extends _ (DeepFrom (depth + 1)) ?_ _ _ _
          st).weaken (fun e => DeepFrom.ofLe (Nat.le_succ depth) e)
        intro stage prev s
        exact executeSingleW_extends (chainExec tr fuel) tr c.opts depth
          stage prev s (fun c' s' => ih c' (depth + 1) s')
      unfold execWrap
      rcases hr : runStagesW (stageDispatch tr fuel depth c.opts)
          c.stages [] [] st with ⟨out, st1⟩
      rw [hr] at hrun
      have hdd : ∀ v, DeepFrom depth (.resEv depth v) := by
        intro v k hk
        simp [Event.handlerDepth] at hk; omega
      have hde : ∀ e, DeepFrom depth (.errEv depth e) := by
        intro e k hk
        simp [Event.handlerDepth] at hk; omega
      have hdf : DeepFrom depth (.finEv depth) := by
        intro k hk
        simp [Event.handlerDepth] at hk; omega
      cases out with
      | ok results =>
          simp only
          by_cases h1 : (c.resultH &&
              (results.getLast?.getD JSVal.undefV).truthy) = true <;>
            by_cases h2 : c.finishH = true <;>
            simp [h1, h2] <;>
            first
              | exact (hrun.emit (hdd _)).emit hdf
              | exact hrun.emit (hdd _)
              | exact hrun.emit hdf
              | exact hrun
      | error e =>
          simp only
          by_cases h1 : c.errorH = true <;>
            by_cases h2 : c.finishH = true <;>
            simp [h1, h2] <;>
            first
              | exact (hrun.emit (hde _)).emit hdf
              | exact hrun.emit (hde _)
              | exact hrun.emit hdf
              | exact hrun

theorem countFin_append (d : Nat) (a b : List Event) :
    countFin d (a ++ b) = countFin d a + countFin d b := by
  simp [countFin, List.countP_append]

theorem countRes_append (d : Nat) (a b : List Event) :
    countRes d (a ++ b) = countRes d a + countRes d b := by
  simp [countRes, List.countP_append]

theorem countErr_append (d : Nat) (a b : List Event) :
    countErr d (a ++ b) = countErr d a + countErr d b := by
  simp [countErr, List.countP_append]

theorem countFin_deep (d : Nat) (delta : List Event)
    (h : ∀ e ∈ delta, DeepFrom (d + 1) e) : countFin d delta = 0 := by
  simp only [countFin, List.countP_eq_zero]
  intro e he
  have hd := h e he
  cases e with
  | finEv k =>
      have h2 := hd k rfl
      simp only [beq_iff_eq]
      omega
  | call cfg => simp
  | errEv k x => simp
  | resEv k x => simp

theorem countRes_deep (d : Nat) (delta : List Event)
    (h : ∀ e ∈ delta, DeepFrom (d + 1) e) : countRes d delta = 0 := by
  simp only [countRes, List.countP_eq_zero]
  intro e he
  have hd := h e he
  cases e with
  | resEv k x =>
      have h2 := hd k rfl
      simp only [beq_iff_eq]
      omega
  | call cfg => simp
  | errEv k x => simp
  | finEv k => simp

theorem countErr_deep (d : Nat) (delta : List Event)
    (h : ∀ e ∈ delta, DeepFrom (d + 1) e) : countErr d delta = 0 := by
  simp only [countErr, List.countP_eq_zero]
  intro e he
  have hd := h e he
  cases e with
  | errEv k x =>
      have h2 := hd k rfl
      simp only [beq_iff_eq]
      omega
  | call cfg => simp
  | resEv k x => simp
  | finEv k => simp

/-- The events added by one full stage loop at depth `d` are transport
calls or handler events of strictly deeper chains. -/
theorem runStages_dispatch_extends (tr : Transport) (fuel depth : Nat)
    (opts : UrlValidationOptions) (todo done : List Stage)
    (acc : List JSVal) (st : S) :
    Extends st
      (runStagesW (stageDispatch tr fuel depth opts) todo done acc st).2
      (DeepFrom (depth + 1)) := by
  refine runStagesW_extends _ (DeepFrom (depth + 1)) ?_ todo done acc st
  intro stage prev s
  exact executeSingleW_extends (chainExec tr fuel) tr opts depth stage
    prev s (fun c' s' => chainExec_extends tr fuel c' (depth + 1) s')

/-- Every successful loop produces one result per stage. -/
theorem runStagesW_length
    (exec1 : Stage → JSVal → S → Except Err JSVal × S) :
    ∀ (todo done : List Stage) (acc : List JSVal) (st : S)
      (res : List JSVal) (st' : S),
      runStagesW exec1 todo done acc st = (.ok res, st') →
      res.length = acc.length + todo.length := by
  intro todo
  induction todo with
  | nil =>
      intro done acc st res st' h
      unfold runStagesW at h
      simp at h
      simp [← h.1]
  | cons stage rest ih =>
      intro done acc st res st' h
      unfold runStagesW at h
      cases done with
      | nil =>
          rcases hr : exec1 stage .undefV st with ⟨out, st1⟩
          simp only [hr] at h
          cases out with
          | error e => simp at h
          | ok raw =>
              have hlen := ih _ _ _ _ _ h
              simp at hlen
              simp [hlen]
              omega
      | cons p dtail =>
          rcases hr : exec1 stage p.result st with ⟨out, st1⟩
          simp only [hr] at h
          cases out with
          | error e => simp at h
          | ok raw =>
              have hlen := ih _ _ _ _ _ h
              simp at hlen
              simp [hlen]
              omega

/-- Refinement of the slot-reading loop by the direct-threading reference
loop: reading `previousEntity?.result` always yields the mapped output of
the immediately preceding stage (or `undefined` at the start). -/
theorem runStagesW_eq_spec
    (exec1 : Stage → JSVal → S → Except Err JSVal × S) :
    ∀ (todo done : List Stage) (acc : List JSVal) (st : S),
      runStagesW exec1 todo done acc st =
        runStagesSpec exec1 todo
          (match done with | [] => .undefV | prev :: _ => prev.result)
          acc st := by
  intro todo
  induction todo with
  | nil => intro done acc st; rfl
  | cons stage rest ih =>
      intro done acc st
      unfold runStagesW runStagesSpec
      cases done with
      | nil =>
          rcases hr : exec1 stage .undefV st with ⟨out, st1⟩
          simp only [hr]
          cases out with
          | error e => rfl
          | ok raw =>
              have heq := ih [stage.withResult (applyMapper stage.mapper
                raw)] (acc ++ [applyMapper stage.mapper raw]) st1
              simpa using heq
      | cons p dtail =>
          rcases hr : exec1 stage p.result st with ⟨out, st1⟩
          simp only [hr]
          cases out with
          | error e => rfl
          | ok raw =>
              have heq := ih (stage.withResult (applyMapper stage.mapper
                raw) :: p :: dtail) (acc ++ [applyMapper stage.mapper raw])
                st1
              simpa using heq

@[simp] theorem S.emit_events (st : S) (e : Event) :
    (st.emit e).events = st.events ++ [e] := rfl

theorem countFin_one_fin (d k : Nat) :
    countFin d [.finEv k] = if k == d then 1 else 0 := by
  simp [countFin, List.countP_cons]

theorem countFin_one_res (d k : Nat) (v : JSVal) :
    countFin d [.resEv k v] = 0 := by
  simp [countFin, List.countP_cons]

theorem countFin_one_err (d k : Nat) (e : Err) :
    countFin d [.errEv k e] = 0 := by
  simp [countFin, List.countP_cons]

theorem countRes_one_res (d k : Nat) (v : JSVal) :
    countRes d [.resEv k v] = if k == d then 1 else 0 := by
  simp [countRes, List.countP_cons]

theorem countRes_one_fin (d k : Nat) :
    countRes d [.finEv k] = 0 := by
  simp [countRes, List.countP_cons]

theorem countRes_one_err (d k : Nat) (e : Err) :
    countRes d [.errEv k e] = 0 := by
  simp [countRes, List.countP_cons]

/-- C1: a request config whose URL the URL guard rejects makes
`executeRequest` raise the SSRF validation failure with the execution
state (event log and transport-attempt counter) unchanged — zero
transport attempts occur — and the engine's `executeSingle` dispatches
every `config`-carrying stage through `executeRequest` (followed by the
identity `getResult`), never through `createRequest` directly. -/
theorem c1_url_guard_blocks_before_transport :
    (∀ (opts : UrlValidationOptions) (tr : Transport)
      (cfg : RequestConfig) (st : S) (reason : String),
      validateUrl cfg.url opts = .error reason →
      executeRequest opts tr cfg st = (.error (.ssrf reason), st))
    ∧ (∀ (recur : Chain → Nat → S → Except Err JSVal × S)
        (tr : Transport) (opts : UrlValidationOptions) (depth : Nat)
        (cv : ConfigField) (req : Option Chain)
        (pre : Option (Unit → Bool)) (m : Option (JSVal → JSVal))
        (r : JSVal) (prev : JSVal) (st : S),
        executeSingleW recur tr opts depth (.mk (some cv) req pre m r)
            prev st =
          match executeRequest opts tr (resolveConfig cv prev) st with
          | (.ok raw, st1) => (.ok (getResult raw), st1)
          | (.error e, st1) => (.error e, st1)) := by
  constructor
  · intro opts tr cfg st reason h
    unfold executeRequest
    rw [h]
  · intro recur tr opts depth cv req pre m r prev st
    rfl

/-- Witness for C1 at the spec's own test property: `http://127.0.0.1/x`
with `allowLocalhost` unset is rejected as loopback, and
`executeRequest` fails with the SSRF error while the transport records
zero calls. -/
theorem c1_url_guard_blocks_before_transport_witness :
    validateUrl cfgLoop.url {} = .error "loopback address blocked" ∧
    executeRequest {} trOkW cfgLoop {} =
      (.error (.ssrf "loopback address blocked"), {}) :=
  ⟨rfl, c1_url_guard_blocks_before_transport.1 {} trOkW cfgLoop {}
    "loopback address blocked" rfl⟩

/-- C2 (code bug): with an `ErrorHandler` registered and a failing
transport, `execute` invokes the handler once and rejects — but
`executeAll` invokes the handler once and then RESOLVES with the caught
error (`return Promise.resolve(error)` in the source), so the
`executeAll` call does not end in failure, contradicting the claim. -/
theorem c2_executeAll_swallows_failure :
    chainExec trFailW 1 chainErrW 0 {} =
      (.error (.transport "fake error message"),
       ⟨[.call cfgUsers, .errEv 0 (.transport "fake error message")], 1⟩)
    ∧ chainExecAll trFailW 1 chainErrW 0 {} =
      (.ok (.errV "fake error message"),
       ⟨[.call cfgUsers, .errEv 0 (.transport "fake error message")], 1⟩)
    ∧ countErr 0
        [.call cfgUsers, .errEv 0 (.transport "fake error message")] = 1 := by
  refine ⟨rfl, rfl, ?_⟩
  simp [countErr, List.countP_cons]

/-- C3 (code bug): the execution loop never consults `precondition`.  On
a two-stage chain whose second stage carries `precondition: () => false`,
the second stage's config is still dispatched (the transport records two
calls) and its mapper is still applied (the final value is the second
stage's mapped output, not the first stage's result). -/
theorem c3_precondition_is_ignored :
    chainExec trOkW 1 chainPreW 0 {} =
      (.ok (.arrV [.strV "1"]), ⟨[.call cfgUsers, .call cfgUsers], 2⟩) ∧
    countCalls [Event.call cfgUsers, Event.call cfgUsers] = 2 := by
  refine ⟨rfl, ?_⟩
  simp [countCalls, List.countP_cons]

/-- C7: the previous result fed to stage `i` through the
`previousEntity?.result` slot read is exactly the mapped output of stage
`i - 1` (`undefined` for the first stage) — the slot-reading loop equals
the direct-threading reference loop — and `begin`/`next`/`addAll` only
ever append, so stage order is never reordered. -/
theorem c7_previous_result_and_append_order :
    (∀ (exec1 : Stage → JSVal → S → Except Err JSVal × S)
      (todo : List Stage) (acc : List JSVal) (st : S),
      runStagesW exec1 todo [] acc st =
        runStagesSpec exec1 todo .undefV acc st)
    ∧ (∀ (stage : Stage) (opts : UrlValidationOptions),
        (Chain.begin stage opts).stages = [stage])
    ∧ (∀ (c : Chain) (stage : Stage),
        (c.next stage).stages = c.stages ++ [stage])
    ∧ (∀ (c : Chain) (l : List Stage),
        (c.addAll l).stages = c.stages ++ l) := by
  refine ⟨?_, ?_, ?_, ?_⟩
  · intro exec1 todo acc st
    exact runStagesW_eq_spec exec1 todo [] acc st
  · intro stage opts; rfl
  · intro c stage; rfl
  · intro c l; rfl

/-- C10: stage-variant discrimination tests the `config` key first — a
stage carrying both keys behaves identically to the same stage with its
`request` key removed (the nested chain is ignored) and dispatches as a
request stage — and only a stage carrying neither key fails with the
unknown-stage error. -/
theorem c10_discrimination_config_first :
    (∀ (recur : Chain → Nat → S → Except Err JSVal × S) (tr : Transport)
      (opts : UrlValidationOptions) (depth : Nat) (cv : ConfigField)
      (req : Option Chain) (pre : Option (Unit → Bool))
      (m : Option (JSVal → JSVal)) (r : JSVal) (prev : JSVal) (st : S),
      executeSingleW recur tr opts depth (.mk (some cv) req pre m r)
          prev st =
        executeSingleW recur tr opts depth (.mk (some cv) none pre m r)
          prev st)
    ∧ (∀ (recur : Chain → Nat → S → Except Err JSVal × S)
        (tr : Transport) (opts : UrlValidationOptions) (depth : Nat)
        (pre : Option (Unit → Bool)) (m : Option (JSVal → JSVal))
        (r : JSVal) (prev : JSVal) (st : S),
        executeSingleW recur tr opts depth (.mk none none pre m r) prev
          st = (.error .unknownStage, st)) := by
  constructor
  · intro recur tr opts depth cv req pre m r prev st
    rfl
  · intro recur tr opts depth pre m r prev st
    rfl

theorem countFin_fin_self (d : Nat) : countFin d [.finEv d] = 1 := by
  simp [countFin, List.countP_cons]

theorem countFin_nil (d : Nat) : countFin d [] = 0 := rfl

theorem countFin_cons_fin (d k : Nat) (l : List Event) :
    countFin d (.finEv k :: l) =
      countFin d l + (if k == d then 1 else 0) := by
  simp [countFin, List.countP_cons]

theorem countFin_cons_res (d k : Nat) (v : JSVal) (l : List Event) :
    countFin d (.resEv k v :: l) = countFin d l := by
  simp [countFin, List.countP_cons]

theorem countFin_cons_err (d k : Nat) (e : Err) (l : List Event) :
    countFin d (.errEv k e :: l) = countFin d l := by
  simp [countFin, List.countP_cons]

theorem countRes_nil (d : Nat) : countRes d [] = 0 := rfl

theorem countRes_cons_res (d k : Nat) (v : JSVal) (l : List Event) :
    countRes d (.resEv k v :: l) =
      countRes d l + (if k == d then 1 else 0) := by
  simp [countRes, List.countP_cons]

theorem countRes_cons_fin (d k : Nat) (l : List Event) :
    countRes d (.finEv k :: l) = countRes d l := by
  simp [countRes, List.countP_cons]

theorem countRes_cons_err (d k : Nat) (e : Err) (l : List Event) :
    countRes d (.errEv k e :: l) = countRes d l := by
  simp [countRes, List.countP_cons]

theorem countRes_res_self (d : Nat) (v : JSVal) :
    countRes d [.resEv d v] = 1 := by
  simp [countRes, List.countP_cons]

/-- C4: when every stage of a chain succeeds, `executeAll` returns
exactly one mapped output per stage (in loop order, which claim C7 ties
to append order), and `execute` returns the last of them. -/
theorem c4_all_results_and_last :
    ∀ (tr : Transport) (fuel : Nat) (c : Chain) (depth : Nat) (st : S)
      (res : List JSVal) (st' : S),
      runStagesW (stageDispatch tr fuel depth c.opts) c.stages [] [] st =
        (.ok res, st') →
      res.length = c.stages.length ∧
      (chainExecAll tr (fuel + 1) c depth st).1 = .ok (.arrV res) ∧
      (chainExec tr (fuel + 1) c depth st).1 =
        .ok (res.getLast?.getD .undefV) := by
  intro tr fuel c depth st res st' h
  refine ⟨by simpa using runStagesW_length _ _ _ _ _ _ _ h, ?_, ?_⟩
  · rw [chainExecAll_succ, h]
    unfold execAllWrap
    by_cases h1 : (c.resultH && (JSVal.arrV res).truthy) = true <;>
      by_cases h2 : c.finishH = true <;> simp [h1, h2]
  · rw [chainExec_succ, h]
    unfold execWrap
    by_cases h1 :
        (c.resultH && (res.getLast?.getD JSVal.undefV).truthy) = true <;>
      by_cases h2 : c.finishH = true <;> simp [h1, h2]

/-- Witness for C4 on a concrete two-stage chain that fully succeeds. -/
theorem c4_all_results_and_last_witness :
    runStagesW (stageDispatch trOkW 0 0 chainTwoW.opts) chainTwoW.stages
      [] [] {} =
      (.ok [.strV "0", .arrV [.strV "1"]],
       ⟨[.call cfgUsers, .call cfgUsers], 2⟩) ∧
    ([JSVal.strV "0", .arrV [.strV "1"]].length =
        chainTwoW.stages.length ∧
      (chainExecAll trOkW 1 chainTwoW 0 {}).1 =
        .ok (.arrV [.strV "0", .arrV [.strV "1"]]) ∧
      (chainExec trOkW 1 chainTwoW 0 {}).1 =
        .ok ([JSVal.strV "0", .arrV [.strV "1"]].getLast?.getD
          .undefV)) :=
  ⟨rfl, c4_all_results_and_last trOkW 0 chainTwoW 0 {}
    [.strV "0", .arrV [.strV "1"]] ⟨[.call cfgUsers, .call cfgUsers], 2⟩
    rfl⟩

/-- C5: under the policy `maxRetries 3, retryDelay 100, exponential
backoff` and a dispatch that fails twice with condition-satisfying
failures and then succeeds, the retry evaluator succeeds with the third
attempt's value after backoff delays of 100 and 200; and a stage with no
retry policy is dispatched exactly once with no backoff. -/
theorem c5_retry_third_attempt :
    (∀ (cond : String → Bool) (dispatch : Nat → Except String JSVal)
      (e0 e1 : String) (v : JSVal),
      dispatch 0 = .error e0 → dispatch 1 = .error e1 →
      dispatch 2 = .ok v → cond e0 = true → cond e1 = true →
      runWithRetry
        { maxRetries := 3, retryDelay := 100,
          exponentialBackoff := true, retryCondition := cond }
        dispatch = (.ok v, [100, 200]))
    ∧ (∀ dispatch : Nat → Except String JSVal,
        dispatchWithPolicy none dispatch = (dispatch 0, [])) := by
  constructor
  · intro cond dispatch e0 e1 v h0 h1 h2 hc0 hc1
    show retryLoop _ dispatch 0 (3 + 1) = _
    unfold retryLoop
    rw [h0]
    simp only [hc0]
    norm_num
    unfold retryLoop
    rw [h1]
    simp only [hc1]
    norm_num
    unfold retryLoop
    rw [h2]
    simp [retryDelayFor]
  · intro dispatch
    rfl

/-- Witness for C5 at the concrete fail-fail-succeed dispatch. -/
theorem c5_retry_third_attempt_witness :
    dispatchW 0 = .error "err0" ∧ dispatchW 1 = .error "err1" ∧
    dispatchW 2 = .ok (.strV "third attempt") ∧
    runWithRetry policyW dispatchW =
      (.ok (.strV "third attempt"), [100, 200]) :=
  ⟨rfl, rfl, rfl,
    c5_retry_third_attempt.1 (fun _ => true) dispatchW "err0" "err1"
      (.strV "third attempt") rfl rfl rfl rfl rfl⟩

/-- C8: one call to `execute` or `executeAll` fires the finish handler
exactly once when it is registered (and never otherwise), on the success
path and on the failure path alike — the count of depth-`depth`
finish-handler events grows by exactly one when `finishH` is set,
whatever the stages and transport do. -/
theorem c8_finish_fires_exactly_once :
    ∀ (tr : Transport) (fuel : Nat) (c : Chain) (depth : Nat) (st : S),
      countFin depth ((chainExec tr (fuel + 1) c depth st).2.events) =
        countFin depth st.events + (if c.finishH then 1 else 0) ∧
      countFin depth ((chainExecAll tr (fuel + 1) c depth st).2.events) =
        countFin depth st.events + (if c.finishH then 1 else 0) := by
  intro tr fuel c depth st
  obtain ⟨delta, hev, hdeep⟩ :=
    runStages_dispatch_extends tr fuel depth c.opts c.stages [] [] st
  rcases hr : runStagesW (stageDispatch tr fuel depth c.opts) c.stages
      [] [] st with ⟨out, st1⟩
  rw [hr] at hev
  replace hev : st1.events = st.events ++ delta := hev
  have hdelta : countFin depth delta = 0 := countFin_deep depth delta
    hdeep
  constructor
  · rw [chainExec_succ, hr]
    unfold execWrap
    cases out with
    | ok results =>
        by_cases h1 : (c.resultH &&
            (results.getLast?.getD JSVal.undefV).truthy) = true <;>
          by_cases h2 : c.finishH = true <;>
          simp [h1, h2, hev, countFin_append, hdelta, countFin_nil,
            countFin_cons_fin, countFin_cons_res]
    | error e =>
        by_cases h1 : c.errorH = true <;>
          by_cases h2 : c.finishH = true <;>
          simp [h1, h2, hev, countFin_append, hdelta, countFin_nil,
            countFin_cons_fin, countFin_cons_err]
  · rw [chainExecAll_succ, hr]
    unfold execAllWrap
    cases out with
    | ok results =>
        by_cases h1 : (c.resultH && (JSVal.arrV results).truthy) =
            true <;>
          by_cases h2 : c.finishH = true <;>
          simp [h1, h2, hev, countFin_append, hdelta, countFin_nil,
            countFin_cons_fin, countFin_cons_res]
    | error e =>
        by_cases h1 : c.errorH = true <;>
          by_cases h2 : c.finishH = true <;>
          simp [h1, h2, hev, countFin_append, hdelta, countFin_nil,
            countFin_cons_fin, countFin_cons_err]

/-- C9: when `execute` succeeds but the final mapped output is falsy,
the result handler is not invoked (the post-state is exactly the loop's
post-state plus the finish event, with no result-handler event) although
the falsy value is still returned; `executeAll` with a result handler
registered always invokes it, since its result sequence (an array) is
always truthy. -/
theorem c9_result_handler_falsy_gate :
    (∀ (tr : Transport) (fuel : Nat) (c : Chain) (depth : Nat) (st : S)
      (res : List JSVal) (st' : S),
      runStagesW (stageDispatch tr fuel depth c.opts) c.stages [] [] st =
        (.ok res, st') →
      (res.getLast?.getD .undefV).truthy = false →
      chainExec tr (fuel + 1) c depth st =
        (.ok (res.getLast?.getD .undefV),
         if c.finishH then st'.emit (.finEv depth) else st'))
    ∧ (∀ (tr : Transport) (fuel : Nat) (c : Chain) (depth : Nat) (st : S)
      (res : List JSVal) (st' : S),
      c.resultH = true →
      runStagesW (stageDispatch tr fuel depth c.opts) c.stages [] [] st =
        (.ok res, st') →
      countRes depth ((chainExecAll tr (fuel + 1) c depth st).2.events) =
        countRes depth st.events + 1) := by
  constructor
  · intro tr fuel c depth st res st' h htruthy
    rw [chainExec_succ, h]
    unfold execWrap
    by_cases hf : c.finishH = true <;> simp [htruthy, hf]
  · intro tr fuel c depth st res st' hres h
    obtain ⟨delta, hev, hdeep⟩ :=
      runStages_dispatch_extends tr fuel depth c.opts c.stages [] [] st
    rw [h] at hev
    replace hev : st'.events = st.events ++ delta := hev
    have hdelta : countRes depth delta = 0 := countRes_deep depth delta
      hdeep
    rw [chainExecAll_succ, h]
    unfold execAllWrap
    by_cases hf : c.finishH = true <;>
      simp [hres, hf, hev, JSVal.truthy, countRes_append, hdelta,
        countRes_nil, countRes_cons_res, countRes_cons_fin]

/-- Witness for C9: a one-stage chain with a result handler whose mapper
yields `undefined` — `execute` returns the falsy value without a
result-handler event, while `executeAll` fires the handler once. -/
theorem c9_result_handler_falsy_gate_witness :
    runStagesW (stageDispatch trOkW 0 0 chainFalsyW.opts)
      chainFalsyW.stages [] [] {} =
      (.ok [.undefV], ⟨[.call cfgUsers], 1⟩) ∧
    JSVal.truthy ([JSVal.undefV].getLast?.getD .undefV) = false ∧
    chainExec trOkW 1 chainFalsyW 0 {} =
      (.ok ([JSVal.undefV].getLast?.getD .undefV),
       if chainFalsyW.finishH then
         S.emit ⟨[.call cfgUsers], 1⟩ (.finEv 0)
       else ⟨[.call cfgUsers], 1⟩) ∧
    countRes 0 ((chainExecAll trOkW 1 chainFalsyW 0 {}).2.events) =
      countRes 0 (S.events {}) + 1 :=
  ⟨rfl, rfl,
    c9_result_handler_falsy_gate.1 trOkW 0 chainFalsyW 0 {} [.undefV]
      ⟨[.call cfgUsers], 1⟩ rfl rfl,
    c9_result_handler_falsy_gate.2 trOkW 0 chainFalsyW 0 {} [.undefV]
      ⟨[.call cfgUsers], 1⟩ rfl rfl⟩

/-- C6: a manager stage dispatches the nested chain's own `execute`
to completion first — the parent's loop continues from the nested run's
complete post-state — and the single value the parent forwards and
caches is the nested chain's result transformed by the manager stage's
mapper; that nested result is itself the nested chain's final mapped
output (the last element of its own stage-loop results). -/
theorem c6_manager_stage_collapses :
    ∀ (tr : Transport) (fuel : Nat) (nested : Chain) (depth : Nat)
      (opts : UrlValidationOptions) (pre : Option (Unit → Bool))
      (m : Option (JSVal → JSVal)) (r : JSVal) (rest done : List Stage)
      (acc : List JSVal) (st st1 : S) (v : JSVal),
      chainExec tr fuel nested (depth + 1) st = (.ok v, st1) →
      (runStagesW (stageDispatch tr fuel depth opts)
          (Stage.mk none (some nested) pre m r :: rest) done acc st =
        runStagesW (stageDispatch tr fuel depth opts) rest
          ((Stage.mk none (some nested) pre m r).withResult
            (applyMapper m v) :: done)
          (acc ++ [applyMapper m v]) st1)
      ∧ (∀ (fuel2 : Nat) (resultsN : List JSVal) (stN : S),
          fuel = fuel2 + 1 →
          runStagesW (stageDispatch tr fuel2 (depth + 1) nested.opts)
            nested.stages [] [] st = (.ok resultsN, stN) →
          v = resultsN.getLast?.getD .undefV) := by
  intro tr fuel nested depth opts pre m r rest done acc st st1 v hnested
  have hd2 : ∀ prev s1,
      stageDispatch tr fuel depth opts
        (Stage.mk none (some nested) pre m r) prev s1 =
        match chainExec tr fuel nested (depth + 1) s1 with
        | (.ok raw, s2) => (.ok (getResult raw), s2)
        | (.error e, s2) => (.error e, s2) := by
    intro prev s1
    rfl
  constructor
  · cases done with
    | nil =>
        conv_lhs => rw [runStagesW]
        simp only [hd2, hnested]
        rfl
    | cons p dtail =>
        conv_lhs => rw [runStagesW]
        simp only [hd2, hnested]
        rfl
  · intro fuel2 resultsN stN hf hrunN
    subst hf
    rw [chainExec_succ, hrunN] at hnested
    unfold execWrap at hnested
    by_cases h1 : (nested.resultH &&
        (resultsN.getLast?.getD JSVal.undefV).truthy) = true <;>
      by_cases h2 : nested.finishH = true <;>
      simp [h1, h2] at hnested <;>
      exact hnested.1.symm

/-- Witness for C6 on the spec's example: a nested two-stage chain
collapses, from the parent's view, into one forwarded value. -/
theorem c6_manager_stage_collapses_witness :
    chainExec trOkW 1 nestedTwoW 1 {} =
      (.ok (.arrV [.strV "1"]), ⟨[.call cfgUsers, .call cfgUsers], 2⟩) ∧
    runStagesW (stageDispatch trOkW 1 0 {})
        (Stage.mk none (some nestedTwoW) none
          (some (fun v => .arrV [v, .nullV])) .undefV :: []) [] [] {} =
      runStagesW (stageDispatch trOkW 1 0 {}) []
        ((Stage.mk none (some nestedTwoW) none
          (some (fun v => .arrV [v, .nullV])) .undefV).withResult
            (applyMapper (some (fun v => .arrV [v, .nullV]))
              (.arrV [.strV "1"])) :: [])
        ([] ++ [applyMapper (some (fun v => .arrV [v, .nullV]))
          (.arrV [.strV "1"])])
        ⟨[.call cfgUsers, .call cfgUsers], 2⟩ :=
  ⟨rfl,
    (c6_manager_stage_collapses trOkW 1 nestedTwoW 0 {} none
      (some (fun v => .arrV [v, .nullV])) .undefV [] [] [] {}
      ⟨[.call cfgUsers, .call cfgUsers], 2⟩ (.arrV [.strV "1"]) rfl).1⟩

end FlowConductor
